import Mathlib

/-!
# Texas Hold'em engine: shallow embedding

A shallow embedding of the betting/round state machine, the hand evaluator
and the intent-to-action mapper of the Texas Hold'em repository
(poker-utils.js, poker-ai-decision.js and the game-engine class file).

Conventions of the embedding:
* JS numbers holding chip counts and bet amounts are modelled as `Int`
  (the engine floors stacks to integers and only adds/subtracts/compares);
  fractional quantities of the AI mapper (pot-relative sizes, confidence
  scores) are modelled as `Rat`.
* JS strings (actions, difficulty, categories) are modelled as `String`.
* Mutation of `this` and of player objects is modelled by explicit state
  passing; a thrown-and-caught exception becomes an error value.
* `Math.random()` outcomes are passed in as explicit parameters.
-/

namespace TexasHoldem

/-! ## Cards (createShuffledDeck builds rank/suit pairs from these sets) -/

inductive Suit
  | hearts | diamonds | clubs | spades
deriving DecidableEq

inductive Rank
  | r2 | r3 | r4 | r5 | r6 | r7 | r8 | r9 | rT | rJ | rQ | rK | rA
deriving DecidableEq

structure Card where
  rank : Rank
  suit : Suit
deriving DecidableEq

/-- getCardRankValue (poker-utils.js): numeric value 2..14 of a rank. -/
def getCardRankValue : Rank → Nat
  | .rA => 14
  | .rK => 13
  | .rQ => 12
  | .rJ => 11
  | .rT => 10
  | .r9 => 9
  | .r8 => 8
  | .r7 => 7
  | .r6 => 6
  | .r5 => 5
  | .r4 => 4
  | .r3 => 3
  | .r2 => 2

/-! ## Hand evaluator (evaluatePokerHand, poker-utils.js lines 23-187) -/

/-- Insert into a descending-sorted list, keeping it descending. -/
def insertDesc (a : Nat) : List Nat → List Nat
  | [] => [a]
  | b :: bs => if b ≤ a then a :: b :: bs else b :: insertDesc a bs

/-- Sort a list of naturals in descending order
(the JS code sorts with the comparator (a, b) => b - a). -/
def sortDescNat (l : List Nat) : List Nat :=
  l.foldr insertDesc []

/-- The wheel test of evaluatePokerHand: ranks 14, 5, 4, 3, 2 all present. -/
def wheelPresent (l : List Nat) : Bool :=
  l.contains 14 && l.contains 5 && l.contains 4 && l.contains 3 && l.contains 2

/-- One window of the straight scan: the first five entries of a
descending unique-rank list are consecutive.  Lists shorter than five
cards have no window, matching the JS loop bound. -/
def isSeqDesc5 : List Nat → Bool
  | a :: b :: c :: d :: e :: _ =>
      (a == b + 1) && (b == c + 1) && (c == d + 1) && (d == e + 1)
  | _ => false

/-- The straight scan of evaluatePokerHand: some length-5 window of the
descending unique rank list is consecutive. -/
def hasStraightDesc : List Nat → Bool
  | [] => false
  | x :: t => isSeqDesc5 (x :: t) || hasStraightDesc t

/-- The royal-flush test applied to the suited unique ranks:
top card is an Ace and 13, 12, 11, 10 are present. -/
def royalCheck (l : List Nat) : Bool :=
  (l.headD 0 == 14) && l.contains 13 && l.contains 12 && l.contains 11 && l.contains 10

/-- Per-suit straight-flush / royal-flush detection (the body of the
`for suit in suitCounts` loop of evaluatePokerHand).  Returns the pair
(isStraightFlush, isRoyalFlush) contributed by this suit; suits with
fewer than five cards contribute nothing. -/
def suitSFRoyal (allCards : List Card) (st : Suit) : Bool × Bool :=
  if 5 ≤ (allCards.filter (fun c => c.suit == st)).length then
    let uniqueSuitedRanks :=
      sortDescNat (((allCards.filter (fun c => c.suit == st)).map
        (fun c => getCardRankValue c.rank)).dedup)
    if 5 ≤ uniqueSuitedRanks.length then
      let sf := hasStraightDesc uniqueSuitedRanks
      let royal := sf && royalCheck uniqueSuitedRanks
      -- the wheel straight flush is only checked when no window matched
      (sf || (!sf && wheelPresent uniqueSuitedRanks), royal)
    else (false, false)
  else (false, false)

/-- Evaluation result {category, value, description}.  The `details`
field of the JS result (the raw rank/suit count maps) is not modelled. -/
structure HandResult where
  category : String
  value : Nat
  description : String
deriving DecidableEq

/-- The category if-chain of evaluatePokerHand (lines 142-184).
`sortedRankCounts` is the list of rank multiplicities sorted descending;
indexing past its end yields 0, matching the JS `undefined === n` being
false for the compared constants. -/
def rankHand (isRoyalFlush isStraightFlush : Bool) (sortedRankCounts : List Nat)
    (isFlush isStraight isWheel : Bool) : HandResult :=
  if isRoyalFlush then ⟨("royal_flush"), 10, ("Royal Flush")⟩
  else if isStraightFlush then ⟨("straight_flush"), 9, ("Straight Flush")⟩
  else if sortedRankCounts.headD 0 == 4 then ⟨("four_of_a_kind"), 8, ("Four of a Kind")⟩
  else if sortedRankCounts.headD 0 == 3 && sortedRankCounts.getD 1 0 == 2 then
    ⟨("full_house"), 7, ("Full House")⟩
  else if isFlush then ⟨("flush"), 6, ("Flush")⟩
  else if isStraight || isWheel then ⟨("straight"), 5, ("Straight")⟩
  else if sortedRankCounts.headD 0 == 3 then ⟨("three_of_a_kind"), 4, ("Three of a Kind")⟩
  else if sortedRankCounts.headD 0 == 2 && sortedRankCounts.getD 1 0 == 2 then
    ⟨("two_pair"), 3, ("Two Pair")⟩
  else if sortedRankCounts.headD 0 == 2 then ⟨("one_pair"), 2, ("One Pair")⟩
  else ⟨("high_card"), 1, ("High Card")⟩

/-- evaluatePokerHand (poker-utils.js): evaluates hole + community cards.
With fewer than five cards in total it returns the degenerate
"Incomplete hand" result with value 0. -/
def evaluatePokerHand (holeCards communityCards : List Card) : HandResult :=
  let allCards := holeCards ++ communityCards
  if allCards.length < 5 then ⟨("high_card"), 0, ("Incomplete hand")⟩
  else
    let ranks := allCards.map (fun c => getCardRankValue c.rank)
    -- Object.values(rankCounts): the multiplicities of the ranks present
    let rankCountsList := ((List.range 13).map (fun i => ranks.count (i + 2))).filter
      (fun n => 0 < n)
    let sortedRankCounts := sortDescNat rankCountsList
    let suits := allCards.map Card.suit
    let maxSuitCount :=
      max (max (suits.count Suit.hearts) (suits.count Suit.diamonds))
        (max (suits.count Suit.clubs) (suits.count Suit.spades))
    let uniqueRanks := sortDescNat ranks.dedup
    let isWheel := wheelPresent uniqueRanks
    -- regular straights are only scanned when the hand is not a wheel
    let isStraight := !isWheel && hasStraightDesc uniqueRanks
    let isFlush := decide (5 ≤ maxSuitCount)
    let sfh := suitSFRoyal allCards Suit.hearts
    let sfd := suitSFRoyal allCards Suit.diamonds
    let sfc := suitSFRoyal allCards Suit.clubs
    let sfs := suitSFRoyal allCards Suit.spades
    let isStraightFlush := isFlush && (sfh.1 || sfd.1 || sfc.1 || sfs.1)
    let isRoyalFlush := isFlush && (sfh.2 || sfd.2 || sfc.2 || sfs.2)
    rankHand isRoyalFlush isStraightFlush sortedRankCounts isFlush isStraight isWheel

/-! ## Round/Hand state machine (the PokerGameEngine class) -/

/-- One actor (the human player or a bot); the per-round fields used by
the betting logic.  Identity/position fields are not needed by the
betting code and are not modelled. -/
structure Player where
  stack : Int
  betInCurrentRound : Int
  folded : Bool
  isActive : Bool
deriving DecidableEq

/-- The mutable engine fields touched by the betting state machine. -/
structure EngineState where
  humanPlayer : Player
  bots : List Player
  potSize : Int
  currentRound : String
  boardCards : List Card
  deck : List Card
deriving DecidableEq

/-- Which player object an operation receives (`this.humanPlayer` or
`this.bots[i]`); models the aliasing between the player argument of
applyAction and the engine state. -/
inductive Target
  | human
  | bot (i : Nat)
deriving DecidableEq

def getPlayer (s : EngineState) : Target → Option Player
  | .human => some s.humanPlayer
  | .bot i => s.bots.get? i

def setPlayer (s : EngineState) (t : Target) (p : Player) : EngineState :=
  match t with
  | .human => { s with humanPlayer := p }
  | .bot i => { s with bots := s.bots.set i p }

/-- The highest-bet scan shared by calculateCallAmount: highest
betInCurrentRound among unfolded bots and the unfolded human, starting
from 0. -/
def highestUnfoldedBet (s : EngineState) : Int :=
  let b := s.bots.foldl
    (fun acc bot => if !bot.folded && bot.betInCurrentRound > acc then bot.betInCurrentRound else acc) 0
  if !s.humanPlayer.folded && s.humanPlayer.betInCurrentRound > b then
    s.humanPlayer.betInCurrentRound
  else b

/-- calculateCallAmount (engine lines 671-686). -/
def calculateCallAmount (s : EngineState) (player : Player) : Int :=
  max 0 (highestUnfoldedBet s - player.betInCurrentRound)

/-- Result record of applyAction: `ok` carries {success: true, action,
amount, remainingStack}, `err` carries {success: false, action, error}. -/
inductive ActionResult
  | ok (action : String) (amount : Int) (remainingStack : Int)
  | err (action : String) (error : String)
deriving DecidableEq

/-- applyAction (engine lines 617-664).  The thrown unknown-action error
is caught inside the function and reported in the result; the result
`amount` is recomputed from the already-mutated player and state, exactly
as in the source.  The `none` guard is unreachable from the engine (it
always passes an existing player object). -/
def applyAction (s : EngineState) (t : Target) (action : String) (amount : Int) :
    EngineState × ActionResult :=
  match getPlayer s t with
  | none => (s, ActionResult.err action ("no such player"))
  | some player =>
    if action = "fold" then
      let p := { player with folded := true, isActive := false }
      (setPlayer s t p, ActionResult.ok ("fold") 0 p.stack)
    else if action = "call" then
      let callAmount := min (calculateCallAmount s player) player.stack
      if callAmount > 0 then
        let p := { player with
            stack := player.stack - callAmount
            betInCurrentRound := player.betInCurrentRound + callAmount }
        let s2 := setPlayer { s with potSize := s.potSize + callAmount } t p
        (s2, ActionResult.ok ("call") (min (calculateCallAmount s2 p) p.stack) p.stack)
      else
        (s, ActionResult.ok ("call") (min (calculateCallAmount s player) player.stack) player.stack)
    else if action = "raise" then
      let actualRaise := min amount player.stack
      if actualRaise > 0 then
        let p := { player with
            stack := player.stack - actualRaise
            betInCurrentRound := player.betInCurrentRound + actualRaise }
        let s2 := setPlayer { s with potSize := s.potSize + actualRaise } t p
        (s2, ActionResult.ok ("raise") (min amount p.stack) p.stack)
      else
        (s, ActionResult.ok ("raise") (min amount player.stack) player.stack)
    else
      (s, ActionResult.err action ("Unknown action: " ++ action))

/-- A sequence of applyAction calls, threading the state. -/
def applyActions (s : EngineState) : List (Target × String × Int) → EngineState
  | [] => s
  | (t, a, amt) :: rest => applyActions (applyAction s t a amt).1 rest

/-- updatePotSize (engine lines 691-703): pot := sum of every actor's
betInCurrentRound (folded actors included). -/
def updatePotSize (s : EngineState) : EngineState :=
  { s with potSize :=
      (s.bots.foldl (fun acc bot => acc + bot.betInCurrentRound) 0)
        + s.humanPlayer.betInCurrentRound }

/-- The per-street bet reset of startRound: every actor's
betInCurrentRound becomes 0. -/
def resetRoundBets (s : EngineState) : EngineState :=
  { s with
      bots := s.bots.map (fun b => { b with betInCurrentRound := 0 })
      humanPlayer := { s.humanPlayer with betInCurrentRound := 0 } }

/-- dealFlop: burn one card then deal three to the board; fatal when
fewer than four cards remain.  The per-card `deck.length > 0` guards of
the source loop are vacuous after the length check. -/
def dealFlop (s : EngineState) : Except String EngineState :=
  if s.deck.length < 4 then Except.error ("Not enough cards in deck to deal flop")
  else Except.ok { s with
    boardCards := s.boardCards ++ (s.deck.drop 1).take 3
    deck := s.deck.drop 4 }

/-- dealTurn: burn one card then deal one; fatal when fewer than two
cards remain. -/
def dealTurn (s : EngineState) : Except String EngineState :=
  if s.deck.length < 2 then Except.error ("Not enough cards in deck to deal turn")
  else Except.ok { s with
    boardCards := s.boardCards ++ (s.deck.drop 1).take 1
    deck := s.deck.drop 2 }

/-- dealRiver: burn one card then deal one; fatal when fewer than two
cards remain. -/
def dealRiver (s : EngineState) : Except String EngineState :=
  if s.deck.length < 2 then Except.error ("Not enough cards in deck to deal river")
  else Except.ok { s with
    boardCards := s.boardCards ++ (s.deck.drop 1).take 1
    deck := s.deck.drop 2 }

/-- The synchronous state effects of startRound (engine lines 147-181):
validate the round name, install the passed community cards, recompute
the pot with updatePotSize, reset every actor's betInCurrentRound to 0,
then deal when transitioning into flop/turn/river with the expected
prior board length.  The logging and the strategic-intent request do not
touch the betting state and are not modelled. -/
def startRoundState (s : EngineState) (round : String) (communityCards : List Card) :
    Except String EngineState :=
  if !(["preflop", "flop", "turn", "river"].contains round) then
    Except.error ("Invalid round: " ++ round)
  else
    let s1 := { s with currentRound := round, boardCards := communityCards }
    let s2 := resetRoundBets (updatePotSize s1)
    if round = "flop" ∧ s2.boardCards.length = 0 then dealFlop s2
    else if round = "turn" ∧ s2.boardCards.length = 3 then dealTurn s2
    else if round = "river" ∧ s2.boardCards.length = 4 then dealRiver s2
    else Except.ok s2

/-- The actor list that both completion checks build:
`[this.humanPlayer, ...this.bots.filter(b => !b.folded && b.isActive)]`.
The human player is included unconditionally. -/
def roundActivePlayers (s : EngineState) : List Player :=
  s.humanPlayer :: s.bots.filter (fun b => !b.folded && b.isActive)

/-- Math.max over a spread array of Int (the engine only applies it to
the non-empty activePlayers list). -/
def jsMaxInt : List Int → Int
  | [] => 0
  | a :: as => as.foldl max a

/-- isBettingRoundComplete (engine lines 383-397). -/
def isBettingRoundComplete (s : EngineState) : Bool :=
  let activePlayers := roundActivePlayers s
  if activePlayers.length ≤ 1 then true
  else ((activePlayers.map (fun p => p.betInCurrentRound)).dedup).length == 1

/-- isRoundComplete (engine lines 709-733): the three-alternative
completion check.  Note that a player that is both at the highest bet
and all-in is counted by both filters of the third alternative. -/
def isRoundComplete (s : EngineState) : Bool :=
  let activePlayers := roundActivePlayers s
  if activePlayers.length ≤ 1 then true
  else if ((activePlayers.map (fun p => p.betInCurrentRound)).dedup).length == 1 then true
  else
    let highestBet := jsMaxInt (activePlayers.map (fun p => p.betInCurrentRound))
    ((activePlayers.filter (fun p => p.betInCurrentRound == highestBet)).length
        + (activePlayers.filter (fun p => p.stack == 0)).length)
      == activePlayers.length

/-- isHandComplete (engine lines 739-743). -/
def isHandComplete (s : EngineState) : Bool :=
  (s.humanPlayer :: s.bots.filter (fun b => !b.folded && b.isActive)).length ≤ 1

/-! ## Winner determination (determineWinners, poker-utils.js 277-303) -/

/-- The per-player record consumed by determineWinners: hole cards plus
the active flag (folded players are inactive). -/
structure PlayerHandInfo where
  active : Bool
  cards : List Card
deriving DecidableEq

/-- determineWinners: evaluate every active player, give inactive ones
the sentinel value -1, and return the indices achieving the maximum. -/
def determineWinners (playerHands : List PlayerHandInfo) (communityCards : List Card) :
    List Nat :=
  if playerHands.length = 0 then []
  else
    let evaluations := playerHands.enum.map (fun p =>
      if !p.2.active then (p.1, (-1 : Int))
      else (p.1, ((evaluatePokerHand p.2.cards communityCards).value : Int)))
    let maxHandValue := jsMaxInt (evaluations.map (fun e => e.2))
    (evaluations.filter (fun e => e.2 == maxHandValue)).map (fun e => e.1)

/-! ## Intent-to-action mapper (poker-ai-decision.js) -/

/-- One per-bot entry of the advisory payload. -/
structure BotIntent where
  botIndex : Nat
  actionBias : String
  confidence : Rat
deriving DecidableEq

/-- The concrete action records produced by the mapper. -/
structure ConcreteAction where
  botIndex : Nat
  action : String
  confidence : Rat
deriving DecidableEq

/-- The slice of the game-state object read by determineConcreteAction. -/
structure AIGameState where
  legalActions : List String
  difficulty : String
  potSize : Rat
  playerAction : String
  playerBetSize : Rat
deriving DecidableEq

/-- determineConcreteAction (poker-ai-decision.js lines 497-605).
`randomValue` is the outcome of the single Math.random() call of the
HARD raise-degradation branch.  The `|| default` applications of the
source for difficulty/potSize are modelled on the representable falsy
values ("" and 0). -/
def determineConcreteAction (botAction : BotIntent) (gs : AIGameState)
    (randomValue : Rat) : ConcreteAction :=
  let actionBias := botAction.actionBias
  let confidence := botAction.confidence
  let legalActions := gs.legalActions
  if legalActions.length = 0 then
    ⟨botAction.botIndex, ("call"), 0.5⟩
  else if legalActions.contains actionBias then
    ⟨botAction.botIndex, actionBias, confidence⟩
  else
    let difficulty := if gs.difficulty = "" then "NORMAL" else gs.difficulty
    let potSize := if gs.potSize = 0 then 100 else gs.potSize
    let playerBetSize := gs.playerBetSize
    if actionBias = "raise" ∧ legalActions.contains ("call") then
      if difficulty = "HARD" ∧ randomValue > 0.3 then
        ⟨botAction.botIndex, ("call"), min confidence 0.9⟩
      else
        ⟨botAction.botIndex, ("call"), min confidence 0.8⟩
    else if actionBias = "raise" ∧ legalActions.contains ("fold") then
      if difficulty = "HARD" ∧ playerBetSize < potSize * 0.5
          ∧ legalActions.contains ("call") then
        ⟨botAction.botIndex, ("call"), min confidence 0.7⟩
      else
        ⟨botAction.botIndex, ("fold"), max confidence 0.3⟩
    else if actionBias = "call" ∧ legalActions.contains ("fold") then
      if difficulty = "HARD" ∧ playerBetSize < potSize * 0.3
          ∧ legalActions.contains ("call") then
        ⟨botAction.botIndex, ("call"), min confidence 0.8⟩
      else
        ⟨botAction.botIndex, ("fold"), max confidence 0.4⟩
    else if actionBias = "fold" ∧ legalActions.contains ("call") then
      if difficulty = "HARD" ∧ playerBetSize < potSize * 0.4 then
        ⟨botAction.botIndex, ("call"), max confidence 0.6⟩
      else if difficulty = "EASY" then
        ⟨botAction.botIndex, ("fold"), confidence⟩
      else
        -- NORMAL falls through the chain to the final fallback
        ⟨botAction.botIndex, legalActions.headD ("call"), 0.5⟩
    else
      ⟨botAction.botIndex, legalActions.headD ("call"), 0.5⟩

/-! ## Fallback decision (generateFallbackDecision, poker-ai-decision.js 262-308) -/

/-- The fallback advisory decision.  The source serializes this object
with JSON.stringify; the embedding models the object itself. -/
structure FallbackDecision where
  globalPlan : String
  aggression : Rat
  bluffFrequency : Rat
  coordination : Rat
  botActions : List BotIntent
deriving DecidableEq

/-- The slice of gameData read by generateFallbackDecision; a missing or
non-array botStacks field is `none`. -/
structure GameData where
  difficulty : String
  botStacks : Option (List Int)
deriving DecidableEq

/-- randomActions[Math.floor(Math.random() * 3)] of the EASY branch. -/
def pickRandomAction : Fin 3 → String
  | ⟨0, _⟩ => "fold"
  | ⟨1, _⟩ => "call"
  | ⟨2, _⟩ => "raise"

/-- generateFallbackDecision: one entry per bot stack; `rnd i` is the
outcome of the i-th Math.random() draw of the EASY branch. -/
def generateFallbackDecision (gameData : GameData) (rnd : Nat → Fin 3) :
    FallbackDecision :=
  match gameData.botStacks with
  | none => ⟨("pot_control"), 0.5, 0.3, 0.6, []⟩
  | some stackList =>
    let numBots := stackList.length
    let botActions := (List.range numBots).map (fun i =>
      let actionBias :=
        if gameData.difficulty = "EASY" then pickRandomAction (rnd i)
        else "call"
      (⟨i, actionBias, 0.6⟩ : BotIntent))
    ⟨("pot_control"), 0.5, 0.3, 0.6, botActions⟩

/-! ## Spec-side helper definitions -/

/-- The total chips held in stacks (human plus all bots); an actor's
cumulative contribution in a hand is the decrease of its stack, so the
sum of all contributions is the decrease of `totalStacks`. -/
def totalStacks (s : EngineState) : Int :=
  s.humanPlayer.stack + (s.bots.map (fun b => b.stack)).sum

/-- Every stack (human and bots) is non-negative. -/
def stacksNonneg (s : EngineState) : Prop :=
  0 ≤ s.humanPlayer.stack ∧ ∀ b ∈ s.bots, 0 ≤ b.stack

instance (s : EngineState) : Decidable (stacksNonneg s) := by
  unfold stacksNonneg; infer_instance

/-- Number of active-and-unfolded actors among the human and the bots
(the actor count the spec's handComplete description refers to). -/
def countActiveUnfolded (s : EngineState) : Nat :=
  (s.humanPlayer :: s.bots).countP (fun p => p.isActive && !p.folded)

/-! ## Concrete states for counterexamples and witnesses -/

/-- A freshly reset two-actor hand: both stacks 100, pot 0, no bets. -/
def sFresh : EngineState :=
  ⟨⟨100, 0, false, true⟩, [⟨100, 0, false, true⟩], 0, ("preflop"), [],
    List.replicate 8 ⟨Rank.r2, Suit.hearts⟩⟩

/-- Preflop betting: the human raises 10, the bot calls. -/
def actsC2 : List (Target × String × Int) :=
  [(Target.human, ("raise"), 10), (Target.bot 0, ("call"), 0)]

/-- Mid-hand state for the applyAction result-record claim: the bot has
bet 50 in the current round, the human owes 50 and has stack 100. -/
def sC3 : EngineState :=
  ⟨⟨100, 0, false, true⟩, [⟨100, 50, false, true⟩], 50, ("preflop"), [], []⟩

/-- The human is all-in at the highest bet (stack 0, bet 10) while the
bot has only bet 5 and still holds 100 chips. -/
def sC4 : EngineState :=
  ⟨⟨0, 10, false, true⟩, [⟨100, 5, false, true⟩], 15, ("preflop"), [], []⟩

/-- The human has folded; exactly one bot is still active and unfolded. -/
def sC5 : EngineState :=
  ⟨⟨100, 0, true, false⟩, [⟨100, 0, false, true⟩], 0, ("preflop"), [], []⟩

/-- A state with no active unfolded bot (the bot has folded). -/
def sC5done : EngineState :=
  ⟨⟨100, 0, false, true⟩, [⟨100, 0, true, false⟩], 0, ("preflop"), [], []⟩

/-- Mapper input: fold-biased intent with confidence 1/2. -/
def baC7 : BotIntent := ⟨0, ("fold"), 1/2⟩

/-- Mapper context: EASY difficulty, fold not in the legal set. -/
def gsC7 : AIGameState := ⟨[("call"), ("raise")], ("EASY"), 100, ("raise"), 0⟩

/-- Fallback-policy input: EASY difficulty, a single bot with stack 0. -/
def gdC8 : GameData := ⟨("EASY"), some [0]⟩

/-- Two hole cards only (an incomplete hand for the evaluator). -/
def holeC6 : List Card := [⟨Rank.rA, Suit.hearts⟩, ⟨Rank.rK, Suit.hearts⟩]

/-- Board for the evaluator witness: three hearts completing five cards. -/
def boardC6 : List Card :=
  [⟨Rank.rQ, Suit.hearts⟩, ⟨Rank.rJ, Suit.hearts⟩, ⟨Rank.rT, Suit.hearts⟩]

/-- Game data for the fallback witness: NORMAL difficulty, one bot. -/
def gdW8 : GameData := ⟨("NORMAL"), some [100]⟩

/-- All considered actors share the bet 10 (round-completion witness). -/
def sW4 : EngineState :=
  ⟨⟨50, 10, false, true⟩, [⟨70, 10, false, true⟩], 20, ("preflop"), [], []⟩

/-- A single folded player (winner-determination witness). -/
def handsC10 : List PlayerHandInfo := [⟨false, []⟩]

/-! ## Sanity checks: the three evaluator test vectors of the spec -/

example :
    evaluatePokerHand [⟨Rank.rA, Suit.hearts⟩, ⟨Rank.rK, Suit.hearts⟩]
      [⟨Rank.rQ, Suit.hearts⟩, ⟨Rank.rJ, Suit.hearts⟩, ⟨Rank.rT, Suit.hearts⟩,
       ⟨Rank.r9, Suit.diamonds⟩, ⟨Rank.r8, Suit.clubs⟩]
      = ⟨("royal_flush"), 10, ("Royal Flush")⟩ := by decide

example :
    evaluatePokerHand [⟨Rank.r2, Suit.clubs⟩, ⟨Rank.r2, Suit.diamonds⟩]
      [⟨Rank.r2, Suit.hearts⟩, ⟨Rank.r2, Suit.spades⟩, ⟨Rank.r5, Suit.clubs⟩,
       ⟨Rank.r7, Suit.diamonds⟩, ⟨Rank.r9, Suit.spades⟩]
      = ⟨("four_of_a_kind"), 8, ("Four of a Kind")⟩ := by decide

example :
    evaluatePokerHand [⟨Rank.r3, Suit.hearts⟩, ⟨Rank.r3, Suit.diamonds⟩]
      [⟨Rank.r5, Suit.clubs⟩, ⟨Rank.r7, Suit.diamonds⟩, ⟨Rank.r9, Suit.spades⟩,
       ⟨Rank.rJ, Suit.clubs⟩, ⟨Rank.rK, Suit.hearts⟩]
      = ⟨("one_pair"), 2, ("One Pair")⟩ := by decide

/-! ## C2: startRound pot recomputation discards earlier streets -/

/-- C2: starting from a fresh hand, preflop betting moves 20 chips into
the pot (the actors' all-time contributions are 20, as the stack
decrease shows).  Entering the flop the pot is still 20, but entering
the turn `startRound` recomputes the pot as the sum of the (reset)
current-street bets and gets 0, although the contributions since hand
start are still 20: contributions from earlier streets do NOT remain in
the pot, contradicting the claim. -/
theorem startRound_pot_discards_previous_streets :
    (applyActions sFresh actsC2).potSize = 20
    ∧ totalStacks sFresh - totalStacks (applyActions sFresh actsC2) = 20
    ∧ (((startRoundState (applyActions sFresh actsC2) ("flop") []).bind
          (fun s1 => startRoundState s1 ("turn") s1.boardCards)).map
        (fun s2 => (s2.potSize, totalStacks sFresh - totalStacks s2))).toOption
      = some (0, 20) := by decide

/-! ## C3: the amount field of applyAction results -/

/-- C3: in `sC3` the human owes 50 and has stack 100, so a call moves
min(50, 100) = 50 chips (the stack drops from 100 to 50 and the pot
grows by 50), but the returned record reports `amount = 0` because the
source recomputes the call amount after the mutation.  The claim that
the amount field equals the chips actually moved fails. -/
theorem applyAction_call_amount_field_is_zero :
    (applyAction sC3 Target.human ("call") 0).2 = ActionResult.ok ("call") 0 50
    ∧ sC3.humanPlayer.stack - (applyAction sC3 Target.human ("call") 0).1.humanPlayer.stack = 50
    ∧ (applyAction sC3 Target.human ("call") 0).1.potSize - sC3.potSize = 50
    ∧ min (calculateCallAmount sC3 sC3.humanPlayer) sC3.humanPlayer.stack = 50 := by decide

/-! ## C4: the round-completion check -/

/-- C4 counterexample: in `sC4` the bot is active and unfolded, its bet
(5) differs from the highest current-round bet (10) and its stack is
positive, so the claim demands `false`; but `isRoundComplete` returns
`true`, because the all-in human is counted both by the at-highest-bet
filter and by the all-in filter. -/
theorem isRoundComplete_true_despite_unmatched_bet :
    isRoundComplete sC4 = true
    ∧ ∃ b ∈ sC4.bots, (b.isActive && !b.folded) = true ∧ 0 < b.stack
        ∧ b.betInCurrentRound
            ≠ jsMaxInt ((roundActivePlayers sC4).map (fun p => p.betInCurrentRound)) := by
  decide

/-! ## C5: the hand-completion check -/

/-- C5 counterexample: in `sC5` the human has folded and exactly one
active unfolded actor (the bot) remains, so the claim demands `true`;
but `isHandComplete` returns `false` because the human is counted
unconditionally. -/
theorem isHandComplete_false_with_one_active_actor :
    isHandComplete sC5 = false ∧ countActiveUnfolded sC5 ≤ 1 := by decide

/-! ## C6: evaluator value range -/

/-- C6 counterexample: with only two cards the evaluator returns the
degenerate result with value 0, which does not lie between 1 and 10. -/
theorem evaluatePokerHand_incomplete_value_zero :
    (evaluatePokerHand holeC6 []).value = 0
    ∧ ¬ 1 ≤ (evaluatePokerHand holeC6 []).value := by decide

/-! ## C7: the mapper can return an action outside the legal set -/

/-- C7: with a fold bias, EASY difficulty and legal set {call, raise},
`determineConcreteAction` returns "fold", which is not in the legal
set — the EASY arm of the fold-degradation branch returns the (illegal)
bias itself, contradicting the mapper contract. -/
theorem determineConcreteAction_easy_fold_illegal :
    (determineConcreteAction baC7 gsC7 0).action = "fold"
    ∧ (determineConcreteAction baC7 gsC7 0).action ∉ gsC7.legalActions := by decide

/-! ## C8: the fallback decision -/

/-- C8 counterexample: with EASY difficulty and a single bot whose stack
is 0, the random draw 2 makes `generateFallbackDecision` emit an
actionBias of "raise" for that bot, contradicting the never-raise-on-
empty-stack part of the claim. -/
theorem generateFallbackDecision_raise_on_empty_stack :
    ((generateFallbackDecision gdC8 (fun _ => (2 : Fin 3))).botActions.map
        (fun a => (a.botIndex, a.actionBias))) = [(0, ("raise"))]
    ∧ gdC8.botStacks = some [0] := by decide

/-! ## C1: pot accounting invariant of applyAction sequences -/

theorem sum_map_stack_set (l : List Player) (i : Nat) (p q : Player)
    (h : l.get? i = some p) :
    ((l.set i q).map (fun b => b.stack)).sum
      = (l.map (fun b => b.stack)).sum - p.stack + q.stack := by
  induction l generalizing i with
  | nil => simp at h
  | cons a as ih =>
    cases i with
    | zero =>
      simp only [List.get?] at h
      injection h with h
      subst h
      simp only [List.set, List.map_cons, List.sum_cons]
      ring
    | succ n =>
      simp only [List.get?] at h
      simp only [List.set, List.map_cons, List.sum_cons, ih n h]
      ring

theorem stack_nonneg_set (l : List Player) (i : Nat) (q : Player)
    (hl : ∀ b ∈ l, 0 ≤ b.stack) (hq : 0 ≤ q.stack) :
    ∀ b ∈ l.set i q, 0 ≤ b.stack := by
  intro b hb
  rcases List.mem_or_eq_of_mem_set hb with h | h
  · exact hl b h
  · rw [h]; exact hq

theorem getPlayer_stack_nonneg {s : EngineState} {t : Target} {p : Player}
    (hs : stacksNonneg s) (h : getPlayer s t = some p) : 0 ≤ p.stack := by
  cases t with
  | human =>
    simp only [getPlayer] at h
    injection h with h
    rw [← h]
    exact hs.1
  | bot i =>
    exact hs.2 p (List.get?_mem h)

theorem potSize_setPlayer (s : EngineState) (t : Target) (q : Player) :
    (setPlayer s t q).potSize = s.potSize := by
  cases t <;> rfl

theorem getPlayer_potSize (s : EngineState) (x : Int) (t : Target) :
    getPlayer { s with potSize := x } t = getPlayer s t := by
  cases t <;> rfl

theorem totalStacks_setPlayer (s : EngineState) (t : Target) (p q : Player)
    (h : getPlayer s t = some p) :
    totalStacks (setPlayer s t q) = totalStacks s - p.stack + q.stack := by
  cases t with
  | human =>
    simp only [getPlayer] at h
    injection h with h
    simp only [setPlayer, totalStacks, ← h]
    ring
  | bot i =>
    simp only [getPlayer] at h
    simp only [setPlayer, totalStacks, sum_map_stack_set _ _ _ _ h]
    ring

theorem stacksNonneg_setPlayer (s : EngineState) (t : Target) (q : Player)
    (hs : stacksNonneg s) (hq : 0 ≤ q.stack) : stacksNonneg (setPlayer s t q) := by
  cases t with
  | human => exact ⟨hq, hs.2⟩
  | bot i => exact ⟨hs.1, stack_nonneg_set _ _ _ hs.2 hq⟩

/-- One applyAction call conserves potSize + totalStacks (every chip
entering the pot leaves exactly one stack) and keeps stacks
non-negative (call and raise move at most the actor's stack). -/
theorem applyAction_conserves (s : EngineState) (t : Target) (a : String) (amount : Int)
    (hs : stacksNonneg s) :
    (applyAction s t a amount).1.potSize + totalStacks (applyAction s t a amount).1
        = s.potSize + totalStacks s
    ∧ stacksNonneg (applyAction s t a amount).1 := by
  rcases hgp : getPlayer s t with _ | player
  · simp [applyAction, hgp, hs]
  · have hp : 0 ≤ player.stack := getPlayer_stack_nonneg hs hgp
    simp only [applyAction, hgp]
    split_ifs with h1 h2 hc h3 hr
    · -- fold
      refine ⟨?_, stacksNonneg_setPlayer _ _ _ hs hp⟩
      rw [potSize_setPlayer, totalStacks_setPlayer s t player _ hgp]
      ring
    · -- call with positive amount
      have hle : min (calculateCallAmount s player) player.stack ≤ player.stack :=
        min_le_right _ _
      have hgp2 : getPlayer { s with potSize := s.potSize + min (calculateCallAmount s player) player.stack } t = some player := by
        rw [getPlayer_potSize]; exact hgp
      constructor
      · rw [potSize_setPlayer, totalStacks_setPlayer _ t player _ hgp2]
        show s.potSize + _ + (totalStacks { s with potSize := s.potSize + _ } - player.stack + (player.stack - _)) = _
        have : totalStacks { s with potSize := s.potSize + min (calculateCallAmount s player) player.stack } = totalStacks s := rfl
        rw [this]
        ring
      · refine stacksNonneg_setPlayer _ _ _ ⟨hs.1, hs.2⟩ ?_
        show 0 ≤ player.stack - min (calculateCallAmount s player) player.stack
        omega
    · -- call with non-positive amount: state unchanged
      exact ⟨rfl, hs⟩
    · -- raise with positive amount
      have hle : min amount player.stack ≤ player.stack := min_le_right _ _
      have hgp2 : getPlayer { s with potSize := s.potSize + min amount player.stack } t = some player := by
        rw [getPlayer_potSize]; exact hgp
      constructor
      · rw [potSize_setPlayer, totalStacks_setPlayer _ t player _ hgp2]
        have : totalStacks { s with potSize := s.potSize + min amount player.stack } = totalStacks s := rfl
        rw [this]
        ring
      · refine stacksNonneg_setPlayer _ _ _ ⟨hs.1, hs.2⟩ ?_
        show 0 ≤ player.stack - min amount player.stack
        omega
    · -- raise with non-positive amount: state unchanged
      exact ⟨rfl, hs⟩
    · -- unknown action: state unchanged
      exact ⟨rfl, hs⟩

theorem applyActions_conserves (acts : List (Target × String × Int)) (s : EngineState)
    (hs : stacksNonneg s) :
    (applyActions s acts).potSize + totalStacks (applyActions s acts)
        = s.potSize + totalStacks s
    ∧ stacksNonneg (applyActions s acts) := by
  induction acts generalizing s with
  | nil => exact ⟨rfl, hs⟩
  | cons act rest ih =>
    obtain ⟨t, a, amt⟩ := act
    have h1 := applyAction_conserves s t a amt hs
    have h2 := ih (applyAction s t a amt).1 h1.2
    exact ⟨h2.1.trans h1.1, h2.2⟩

/-- C1: from a freshly reset hand (pot 0, all current-round bets 0,
non-negative stacks), any sequence of applyAction calls with known
actions leaves the pot equal to the sum of all actors' cumulative
contributions (the total decrease of the stacks), and no stack is ever
negative. -/
theorem applyActions_pot_eq_contributions (s0 : EngineState)
    (acts : List (Target × String × Int))
    (hpot : s0.potSize = 0)
    (hbetH : s0.humanPlayer.betInCurrentRound = 0)
    (hbetB : ∀ b ∈ s0.bots, b.betInCurrentRound = 0)
    (hstacks : stacksNonneg s0)
    (hknown : ∀ x ∈ acts, x.2.1 = "fold" ∨ x.2.1 = "call" ∨ x.2.1 = "raise") :
    (applyActions s0 acts).potSize
        = totalStacks s0 - totalStacks (applyActions s0 acts)
    ∧ stacksNonneg (applyActions s0 acts) := by
  have h := applyActions_conserves acts s0 hstacks
  refine ⟨?_, h.2⟩
  have h1 := h.1
  rw [hpot] at h1
  omega

theorem applyActions_pot_eq_contributions_witness :
    (sFresh.potSize = 0 ∧ stacksNonneg sFresh)
    ∧ (applyActions sFresh actsC2).potSize
        = totalStacks sFresh - totalStacks (applyActions sFresh actsC2)
    ∧ stacksNonneg (applyActions sFresh actsC2) :=
  ⟨⟨rfl, by decide⟩,
    applyActions_pot_eq_contributions sFresh actsC2 rfl rfl (by decide) (by decide)
      (by decide)⟩

/-! ## C9: unknown actions are reported, not thrown, and change nothing -/

/-- C9: for any action string other than fold/call/raise, applyAction
returns the unchanged state together with a failure record carrying the
error report; in particular the player's stack, currentRoundBet,
folded/active flags and the pot are untouched. -/
theorem applyAction_unknown_action (s : EngineState) (t : Target) (p : Player)
    (a : String) (amount : Int) (hp : getPlayer s t = some p)
    (h : ¬(a = "fold" ∨ a = "call" ∨ a = "raise")) :
    applyAction s t a amount = (s, ActionResult.err a ("Unknown action: " ++ a)) := by
  push_neg at h
  obtain ⟨h1, h2, h3⟩ := h
  simp [applyAction, hp, h1, h2, h3]

theorem applyAction_unknown_action_witness :
    (getPlayer sC3 Target.human = some sC3.humanPlayer
      ∧ ¬(("check" : String) = "fold" ∨ ("check" : String) = "call"
            ∨ ("check" : String) = "raise"))
    ∧ applyAction sC3 Target.human ("check") 0
        = (sC3, ActionResult.err ("check") ("Unknown action: " ++ "check")) :=
  ⟨⟨rfl, by decide⟩,
    applyAction_unknown_action sC3 Target.human sC3.humanPlayer ("check") 0 rfl (by decide)⟩

/-! ## C5 amended: what isHandComplete actually tests -/

/-- C5 amended: isHandComplete is true exactly when no bot is active
and unfolded; the human player is counted unconditionally (their folded
state is irrelevant), so a hand with a folded human and a single live
bot is NOT reported complete. -/
theorem isHandComplete_iff_no_active_bot (s : EngineState) :
    isHandComplete s = true ↔ s.bots.filter (fun b => !b.folded && b.isActive) = [] := by
  simp only [isHandComplete, List.length_cons, decide_eq_true_eq]
  constructor
  · intro h
    have h0 : (s.bots.filter (fun b => !b.folded && b.isActive)).length = 0 := by omega
    exact List.length_eq_zero.mp h0
  · intro h
    rw [h]
    simp

theorem isHandComplete_iff_no_active_bot_witness :
    isHandComplete sC5done = true :=
  (isHandComplete_iff_no_active_bot sC5done).mpr (by decide)

/-! ## C6 amended: value bounds of the evaluator -/

theorem rankHand_value_bounds (a b : Bool) (l : List Nat) (c d e : Bool) :
    1 ≤ (rankHand a b l c d e).value ∧ (rankHand a b l c d e).value ≤ 10 := by
  unfold rankHand
  split_ifs <;> exact ⟨by decide, by decide⟩

/-- C6 amended: the evaluator's value never exceeds 10; with at least
five cards it lies between 1 and 10; with fewer than five cards the
degenerate "Incomplete hand" result has value 0 (below the 1..10 range
of the ten categories). -/
theorem evaluatePokerHand_value_range (holeCards communityCards : List Card) :
    (evaluatePokerHand holeCards communityCards).value ≤ 10
    ∧ (5 ≤ holeCards.length + communityCards.length
        → 1 ≤ (evaluatePokerHand holeCards communityCards).value)
    ∧ (holeCards.length + communityCards.length < 5
        → evaluatePokerHand holeCards communityCards
            = ⟨("high_card"), 0, ("Incomplete hand")⟩) := by
  have hlen : (holeCards ++ communityCards).length
      = holeCards.length + communityCards.length := List.length_append _ _
  simp only [evaluatePokerHand]
  split_ifs with h
  · rw [hlen] at h
    exact ⟨by decide, fun h5 => absurd h5 (by omega), fun _ => rfl⟩
  · rw [hlen] at h
    exact ⟨(rankHand_value_bounds _ _ _ _ _ _).2,
      fun _ => (rankHand_value_bounds _ _ _ _ _ _).1,
      fun h5 => absurd h5 (by omega)⟩

theorem evaluatePokerHand_value_range_witness :
    (5 ≤ holeC6.length + boardC6.length
      ∧ 1 ≤ (evaluatePokerHand holeC6 boardC6).value)
    ∧ (evaluatePokerHand holeC6 boardC6).value ≤ 10 :=
  ⟨⟨by decide, (evaluatePokerHand_value_range holeC6 boardC6).2.1 (by decide)⟩,
    (evaluatePokerHand_value_range holeC6 boardC6).1⟩

/-! ## C8 amended: shape of the fallback decision -/

theorem pickRandomAction_mem :
    ∀ j : Fin 3, pickRandomAction j = "fold" ∨ pickRandomAction j = "call"
      ∨ pickRandomAction j = "raise" := by decide

theorem generateFallbackDecision_botActions (gd : GameData) (rnd : Nat → Fin 3)
    (stackList : List Int) (h : gd.botStacks = some stackList) :
    (generateFallbackDecision gd rnd).botActions
      = (List.range stackList.length).map (fun i =>
          (⟨i, if gd.difficulty = "EASY" then pickRandomAction (rnd i) else "call",
            0.6⟩ : BotIntent)) := by
  unfold generateFallbackDecision
  rw [h]

/-- C8 amended: for game data with N bot stacks, the fallback decision
has exactly N bot actions, the i-th referencing bot index i with an
actionBias among fold/call/raise; for every difficulty other than EASY
the bias is always "call" (so only the EASY random branch can emit a
raise, and it does so regardless of the bot's stack). -/
theorem generateFallbackDecision_shape (gd : GameData) (rnd : Nat → Fin 3)
    (stackList : List Int) (h : gd.botStacks = some stackList) :
    (generateFallbackDecision gd rnd).botActions.length = stackList.length
    ∧ ∀ i a, (generateFallbackDecision gd rnd).botActions.get? i = some a →
        a.botIndex = i
        ∧ (a.actionBias = "fold" ∨ a.actionBias = "call" ∨ a.actionBias = "raise")
        ∧ (gd.difficulty ≠ "EASY" → a.actionBias = "call") := by
  rw [generateFallbackDecision_botActions gd rnd stackList h]
  refine ⟨by simp, ?_⟩
  intro i a ha
  rw [List.get?_map] at ha
  cases hr : (List.range stackList.length).get? i with
  | none => rw [hr] at ha; exact absurd ha (by simp)
  | some j =>
    rw [hr] at ha
    obtain ⟨hlt, hgetr⟩ := List.get?_eq_some.mp hr
    have hj : j = i := by
      rw [← hgetr]
      simp
    simp only [Option.map_some'] at ha
    injection ha with ha
    rw [← ha, hj]
    refine ⟨rfl, ?_, ?_⟩
    · by_cases hE : gd.difficulty = "EASY"
      · simpa [hE] using pickRandomAction_mem (rnd i)
      · simp [hE]
    · intro hne
      simp [hne]

theorem generateFallbackDecision_shape_witness :
    gdW8.botStacks = some [100]
    ∧ (generateFallbackDecision gdW8 (fun _ => (0 : Fin 3))).botActions.length = 1 :=
  ⟨rfl, (generateFallbackDecision_shape gdW8 (fun _ => (0 : Fin 3)) [100] rfl).1⟩

/-! ## C4: helper lemmas for the round-completion characterization -/

theorem foldl_max_mem (as : List Int) : ∀ a : Int, as.foldl max a ∈ a :: as := by
  induction as with
  | nil => intro a; simp
  | cons b bs ih =>
    intro a
    have h := ih (max a b)
    simp only [List.foldl_cons]
    rcases List.mem_cons.mp h with h1 | h1
    · rw [h1]
      rcases max_choice a b with h2 | h2 <;> rw [h2]
      · exact List.mem_cons_self _ _
      · exact List.mem_cons_of_mem _ (List.mem_cons_self _ _)
    · exact List.mem_cons_of_mem _ (List.mem_cons_of_mem _ h1)

theorem jsMaxInt_mem (l : List Int) (h : l ≠ []) : jsMaxInt l ∈ l := by
  cases l with
  | nil => exact absurd rfl h
  | cons a as => exact foldl_max_mem as a

theorem dedup_length_one_of_all_eq : ∀ l : List Int, l ≠ [] →
    (∀ x ∈ l, ∀ y ∈ l, x = y) → l.dedup.length = 1 := by
  intro l
  induction l with
  | nil => intro hne; exact absurd rfl hne
  | cons a as ih =>
    intro _ h
    cases as with
    | nil => simp
    | cons b bs =>
      have hab : a = b := h a (by simp) b (by simp)
      have h1 : (b :: bs).dedup.length = 1 := by
        refine ih (by simp) ?_
        intro x hx y hy
        exact h x (List.mem_cons_of_mem _ hx) y (List.mem_cons_of_mem _ hy)
      have ha : a ∈ b :: bs := by rw [hab]; exact List.mem_cons_self _ _
      rw [List.dedup_cons_of_mem ha]
      exact h1

theorem all_eq_of_dedup_length_one (l : List Int) (h : l.dedup.length = 1) :
    ∀ x ∈ l, ∀ y ∈ l, x = y := by
  obtain ⟨c, hc⟩ := List.length_eq_one.mp h
  intro x hx y hy
  have hx2 : x ∈ l.dedup := List.mem_dedup.mpr hx
  have hy2 : y ∈ l.dedup := List.mem_dedup.mpr hy
  rw [hc] at hx2 hy2
  simp at hx2 hy2
  rw [hx2, hy2]

theorem eq_of_length_le_one {l : List Player} (h : l.length ≤ 1)
    {x y : Player} (hx : x ∈ l) (hy : y ∈ l) : x = y := by
  cases l with
  | nil => simp at hx
  | cons a as =>
    cases as with
    | nil =>
      simp at hx hy
      rw [hx, hy]
    | cons b bs => simp at h

theorem length_filter_add_length_filter_le (l : List Player) (pA pB : Player → Bool)
    (hno : ∀ y ∈ l, ¬(pA y = true ∧ pB y = true)) :
    (l.filter pA).length + (l.filter pB).length ≤ l.length := by
  induction l with
  | nil => simp
  | cons a as ih =>
    have hrec := ih (fun y hy => hno y (List.mem_cons_of_mem _ hy))
    by_cases hA : pA a = true
    · have hB : ¬ pB a = true := fun hB => hno a (List.mem_cons_self _ _) ⟨hA, hB⟩
      simp [List.filter_cons, hA, hB]
      omega
    · by_cases hB : pB a = true
      · simp [List.filter_cons, hA, hB]
        omega
      · simp [List.filter_cons, hA, hB]
        omega

theorem length_filter_add_length_filter_lt (pA pB : Player → Bool) (x : Player)
    (hxA : pA x = false) (hxB : pB x = false) :
    ∀ l : List Player, x ∈ l → (∀ y ∈ l, ¬(pA y = true ∧ pB y = true)) →
      (l.filter pA).length + (l.filter pB).length < l.length := by
  intro l
  induction l with
  | nil => intro hx _; simp at hx
  | cons a as ih =>
    intro hx hno
    rcases List.mem_cons.mp hx with rfl | hx2
    · have hA : ¬ pA x = true := by simp [hxA]
      have hB : ¬ pB x = true := by simp [hxB]
      have hle := length_filter_add_length_filter_le as pA pB
        (fun y hy => hno y (List.mem_cons_of_mem _ hy))
      simp [List.filter_cons, hA, hB]
      omega
    · have hrec := ih hx2 (fun y hy => hno y (List.mem_cons_of_mem _ hy))
      by_cases hA : pA a = true
      · have hB : ¬ pB a = true := fun hB => hno a (List.mem_cons_self _ _) ⟨hA, hB⟩
        simp [List.filter_cons, hA, hB]
        omega
      · by_cases hB : pB a = true
        · simp [List.filter_cons, hA, hB]
          omega
        · simp [List.filter_cons, hA, hB]
          omega

theorem roundActivePlayers_ne_nil (s : EngineState) : roundActivePlayers s ≠ [] := by
  simp [roundActivePlayers]

theorem isRoundComplete_of_all_eq (s : EngineState)
    (h : ∀ p ∈ roundActivePlayers s, ∀ q ∈ roundActivePlayers s,
        p.betInCurrentRound = q.betInCurrentRound) :
    isRoundComplete s = true := by
  have hd : ((roundActivePlayers s).map (fun p => p.betInCurrentRound)).dedup.length = 1 := by
    refine dedup_length_one_of_all_eq _ ?_ ?_
    · simp [roundActivePlayers]
    · intro x hx y hy
      obtain ⟨p, hp, hpe⟩ := List.mem_map.mp hx
      obtain ⟨q, hq, hqe⟩ := List.mem_map.mp hy
      rw [← hpe, ← hqe]
      exact h p hp q hq
  simp only [isRoundComplete]
  by_cases h1 : (roundActivePlayers s).length ≤ 1
  · rw [if_pos h1]
  · rw [if_neg h1, if_pos (beq_iff_eq.mpr hd)]

theorem isRoundComplete_false_of_unmatched (s : EngineState)
    (hex : ∃ p ∈ roundActivePlayers s,
        p.betInCurrentRound
            ≠ jsMaxInt ((roundActivePlayers s).map (fun p => p.betInCurrentRound))
          ∧ 0 < p.stack)
    (hno : ∀ q ∈ roundActivePlayers s,
        ¬(q.betInCurrentRound
            = jsMaxInt ((roundActivePlayers s).map (fun p => p.betInCurrentRound))
          ∧ q.stack = 0)) :
    isRoundComplete s = false := by
  obtain ⟨p, hp, hpb, hps⟩ := hex
  have hmapne : (roundActivePlayers s).map (fun p => p.betInCurrentRound) ≠ [] := by
    simp [roundActivePlayers]
  have hmem := jsMaxInt_mem _ hmapne
  obtain ⟨q, hq, hqb⟩ := List.mem_map.mp hmem
  have hpq : p ≠ q := by
    intro he
    rw [he] at hpb
    exact hpb hqb
  have hlen : ¬ (roundActivePlayers s).length ≤ 1 :=
    fun hle => hpq (eq_of_length_le_one hle hp hq)
  have hded :
      ¬ ((roundActivePlayers s).map (fun p => p.betInCurrentRound)).dedup.length = 1 := by
    intro h1
    refine hpb ?_
    have := all_eq_of_dedup_length_one _ h1
      p.betInCurrentRound (List.mem_map_of_mem _ hp)
      q.betInCurrentRound (List.mem_map_of_mem _ hq)
    rw [this, hqb]
  have hcount := length_filter_add_length_filter_lt
    (fun r => r.betInCurrentRound
        == jsMaxInt ((roundActivePlayers s).map (fun p => p.betInCurrentRound)))
    (fun r => r.stack == 0) p
    (beq_eq_false_iff_ne.mpr hpb)
    (beq_eq_false_iff_ne.mpr (by omega))
    (roundActivePlayers s) hp
    (fun y hy hand => hno y hy ⟨beq_iff_eq.mp hand.1, beq_iff_eq.mp hand.2⟩)
  simp only [isRoundComplete]
  rw [if_neg hlen, if_neg (fun hb => hded (beq_iff_eq.mp hb)), beq_eq_false_iff_ne]
  omega

theorem isRoundComplete_cases (s : EngineState) (hc : isRoundComplete s = true) :
    (roundActivePlayers s).length ≤ 1
    ∨ (∀ p ∈ roundActivePlayers s, ∀ q ∈ roundActivePlayers s,
        p.betInCurrentRound = q.betInCurrentRound)
    ∨ (((roundActivePlayers s).filter (fun p => p.betInCurrentRound
          == jsMaxInt ((roundActivePlayers s).map (fun p => p.betInCurrentRound)))).length
        + ((roundActivePlayers s).filter (fun p => p.stack == 0)).length
        = (roundActivePlayers s).length) := by
  simp only [isRoundComplete] at hc
  by_cases h1 : (roundActivePlayers s).length ≤ 1
  · exact Or.inl h1
  rw [if_neg h1] at hc
  by_cases h2 :
      ((roundActivePlayers s).map (fun p => p.betInCurrentRound)).dedup.length = 1
  · refine Or.inr (Or.inl ?_)
    intro p hp q hq
    exact all_eq_of_dedup_length_one _ h2
      p.betInCurrentRound (List.mem_map_of_mem _ hp)
      q.betInCurrentRound (List.mem_map_of_mem _ hq)
  · rw [if_neg (fun hb => h2 (beq_iff_eq.mp hb))] at hc
    exact Or.inr (Or.inr (beq_iff_eq.mp hc))

/-- C4 amended: over the considered actors (the human, counted
unconditionally, plus the unfolded active bots) isRoundComplete
(a) is true immediately after all considered actors have equal
currentRoundBet; (b) is false whenever some considered actor's bet
differs from the highest considered bet while its stack is positive,
PROVIDED no considered actor is simultaneously at the highest bet and
all-in (such an actor is counted by both filters of the source and can
mask the unmatched bet); and (c) is true only when at most one
considered actor remains, or all considered bets are equal, or the
at-highest-bet count plus the all-in count (double-counting actors that
are both) covers the whole considered list. -/
theorem isRoundComplete_characterization (s : EngineState) :
    ((∀ p ∈ roundActivePlayers s, ∀ q ∈ roundActivePlayers s,
        p.betInCurrentRound = q.betInCurrentRound) → isRoundComplete s = true)
    ∧ ((∃ p ∈ roundActivePlayers s,
          p.betInCurrentRound
              ≠ jsMaxInt ((roundActivePlayers s).map (fun p => p.betInCurrentRound))
            ∧ 0 < p.stack)
        → (∀ q ∈ roundActivePlayers s,
            ¬(q.betInCurrentRound
                = jsMaxInt ((roundActivePlayers s).map (fun p => p.betInCurrentRound))
              ∧ q.stack = 0))
        → isRoundComplete s = false)
    ∧ (isRoundComplete s = true →
        (roundActivePlayers s).length ≤ 1
        ∨ (∀ p ∈ roundActivePlayers s, ∀ q ∈ roundActivePlayers s,
            p.betInCurrentRound = q.betInCurrentRound)
        ∨ (((roundActivePlayers s).filter (fun p => p.betInCurrentRound
              == jsMaxInt ((roundActivePlayers s).map (fun p => p.betInCurrentRound)))).length
            + ((roundActivePlayers s).filter (fun p => p.stack == 0)).length
            = (roundActivePlayers s).length)) :=
  ⟨fun h => isRoundComplete_of_all_eq s h,
    fun hex hno => isRoundComplete_false_of_unmatched s hex hno,
    fun hc => isRoundComplete_cases s hc⟩

theorem isRoundComplete_characterization_witness :
    (∀ p ∈ roundActivePlayers sW4, ∀ q ∈ roundActivePlayers sW4,
        p.betInCurrentRound = q.betInCurrentRound)
    ∧ isRoundComplete sW4 = true :=
  ⟨by decide, (isRoundComplete_characterization sW4).1 (by decide)⟩

/-! ## C10: winner determination is total and ties all-folded fields -/

theorem winners_of_const_neg_one (l : List (Nat × Int)) (hne : l ≠ [])
    (hconst : ∀ e ∈ l, e.2 = (-1 : Int)) :
    (l.filter (fun e => e.2 == jsMaxInt (l.map (fun e => e.2)))).map (fun e => e.1)
      = l.map (fun e => e.1) := by
  have hvne : l.map (fun e => e.2) ≠ [] := by
    simp only [ne_eq, List.map_eq_nil_iff]
    exact hne
  have hm : jsMaxInt (l.map (fun e => e.2)) = -1 := by
    have hmem := jsMaxInt_mem _ hvne
    obtain ⟨e, he, hee⟩ := List.mem_map.mp hmem
    rw [← hee, hconst e he]
  have hfil : l.filter (fun e => e.2 == jsMaxInt (l.map (fun e => e.2))) = l := by
    apply List.filter_eq_self.mpr
    intro e he
    exact beq_iff_eq.mpr (by rw [hconst e he, hm])
  rw [hfil]

theorem winners_ne_nil (l : List (Nat × Int)) (hne : l ≠ []) :
    (l.filter (fun e => e.2 == jsMaxInt (l.map (fun e => e.2)))).map (fun e => e.1)
      ≠ [] := by
  have hvne : l.map (fun e => e.2) ≠ [] := by
    simp only [ne_eq, List.map_eq_nil_iff]
    exact hne
  have hmem := jsMaxInt_mem _ hvne
  obtain ⟨e, he, hee⟩ := List.mem_map.mp hmem
  have hef : e ∈ l.filter (fun e => e.2 == jsMaxInt (l.map (fun e => e.2))) :=
    List.mem_filter.mpr ⟨he, beq_iff_eq.mpr hee⟩
  intro hnil
  rw [List.map_eq_nil_iff] at hnil
  rw [hnil] at hef
  simp at hef

/-- C10: for a non-empty list of player hands in which every player is
inactive, determineWinners gives every index a value of -1, all tie at
the maximum, and the winner list is the full index range; moreover for
every non-empty input the winner list is never empty. -/
theorem determineWinners_inactive_all_tie (playerHands : List PlayerHandInfo)
    (communityCards : List Card) (hne : playerHands ≠ []) :
    ((∀ h ∈ playerHands, h.active = false)
      → determineWinners playerHands communityCards = List.range playerHands.length)
    ∧ determineWinners playerHands communityCards ≠ [] := by
  have hlen0 : ¬ playerHands.length = 0 := fun h0 => hne (List.length_eq_zero.mp h0)
  have hene : playerHands.enum ≠ [] := by
    simp only [ne_eq, List.enum_eq_enumFrom, List.enumFrom_eq_nil]
    exact hne
  have hsnd : ∀ p ∈ playerHands.enum, p.2 ∈ playerHands := by
    intro p hp
    have h2 := List.mem_map_of_mem Prod.snd hp
    rw [List.enum_eq_enumFrom, List.enumFrom_map_snd] at h2
    exact h2
  constructor
  · intro hall
    have hmapeq : playerHands.enum.map (fun p =>
          if !p.2.active then (p.1, (-1 : Int))
          else (p.1, ((evaluatePokerHand p.2.cards communityCards).value : Int)))
        = playerHands.enum.map (fun p => (p.1, (-1 : Int))) := by
      apply List.map_congr_left
      intro p hp
      have ha : p.2.active = false := hall p.2 (hsnd p hp)
      simp [ha]
    have hgne : playerHands.enum.map (fun p => (p.1, (-1 : Int))) ≠ [] := by
      simp only [ne_eq, List.map_eq_nil_iff]
      exact hene
    have hgconst : ∀ e ∈ playerHands.enum.map (fun p => (p.1, (-1 : Int))),
        e.2 = (-1 : Int) := by
      intro e he
      obtain ⟨p, hp, hpe⟩ := List.mem_map.mp he
      rw [← hpe]
    simp only [determineWinners, if_neg hlen0, hmapeq]
    rw [winners_of_const_neg_one _ hgne hgconst, List.map_map]
    have hcomp : ((fun e : Nat × Int => e.1)
          ∘ (fun p : Nat × PlayerHandInfo => (p.1, (-1 : Int)))) = Prod.fst := rfl
    rw [hcomp, List.enum_eq_enumFrom, List.enumFrom_map_fst, ← List.range_eq_range']
  · have hevne : playerHands.enum.map (fun p =>
          if !p.2.active then (p.1, (-1 : Int))
          else (p.1, ((evaluatePokerHand p.2.cards communityCards).value : Int)))
        ≠ [] := by
      simp only [ne_eq, List.map_eq_nil_iff]
      exact hene
    simp only [determineWinners, if_neg hlen0]
    exact winners_ne_nil _ hevne

theorem determineWinners_inactive_all_tie_witness :
    (handsC10 ≠ [] ∧ ∀ h ∈ handsC10, h.active = false)
    ∧ determineWinners handsC10 [] = List.range handsC10.length
    ∧ determineWinners handsC10 [] ≠ [] :=
  ⟨⟨by decide, by decide⟩,
    (determineWinners_inactive_all_tie handsC10 [] (by decide)).1 (by decide),
    (determineWinners_inactive_all_tie handsC10 [] (by decide)).2⟩

end TexasHoldem
